import Mathlib

/-!
Verification of the rusty_server static-file HTTP server core.

The Rust sources under `src/` are shallowly embedded here:
* strings are `List Char`, raw socket bytes are `List Nat` (one `Nat` per byte);
* the filesystem is an explicit read function `FS : List Char → Option (List Nat)`
  (`fs path = some contents` models a successful `fs::read`, `none` any read failure);
* a TCP stream being read is the list of chunks successive `read` calls return
  (an empty chunk, or running past the end of the list, models a read returning 0 bytes);
* `io::Result` values are modelled by small inductive result types.
-/

/-! ## `src/request.rs` -/

/-- An HTTP request as produced by `parse_request` (struct `HttpRequest` in
`src/request.rs`): the first two whitespace-separated tokens of the request line. -/
structure HttpRequest where
  method : List Char
  path : List Char
deriving DecidableEq

/-- Result of `parse_request` (`std::io::Result<HttpRequest>` in the source, where the
only error constructed is `ErrorKind::InvalidData`). -/
inductive ParseResult where
  | ok (req : HttpRequest)
  | invalidData
deriving DecidableEq

/-- Rust's `char::is_whitespace`: the Unicode `White_Space` property, used by
`str::split_whitespace` in `parse_request`. -/
def isRustWhitespace (c : Char) : Bool :=
  let n := c.toNat
  (9 ≤ n && n ≤ 13) || n == 32 || n == 133 || n == 160 || n == 5760 ||
  (8192 ≤ n && n ≤ 8202) || n == 8232 || n == 8233 || n == 8239 || n == 8287 || n == 12288

/-- Helper for `splitWs`; `acc` holds the current in-progress token, reversed. -/
def splitWsAux : List Char → List Char → List (List Char)
  | [], acc => if acc = [] then [] else [acc.reverse]
  | c :: rest, acc =>
    if isRustWhitespace c then
      if acc = [] then splitWsAux rest []
      else acc.reverse :: splitWsAux rest []
    else splitWsAux rest (c :: acc)

/-- Rust's `str::split_whitespace` (collected to a `Vec` in `parse_request`):
splits on runs of Unicode whitespace, yielding only non-empty tokens. -/
def splitWs (l : List Char) : List (List Char) := splitWsAux l []

/-- Removes one trailing carriage return, as Rust's `str::lines` does to each
line split at a line feed. -/
def stripTrailingCR (l : List Char) : List Char :=
  match l.getLast? with
  | some c => if c = '\r' then l.dropLast else l
  | none => l

/-- Rust's `request_str.lines().next()`: `none` on the empty string, otherwise the
characters before the first line feed with one trailing carriage return removed. -/
def firstLine (s : List Char) : Option (List Char) :=
  if s = [] then none
  else some (stripTrailingCR (s.takeWhile (fun c => c ≠ '\n')))

/-- `parse_request` from `src/request.rs`: takes the first line, splits it on
whitespace, requires at least two tokens (`parts.len() >= 2`), and returns
`HttpRequest { method: parts[0], path: parts[1] }`; otherwise the
`InvalidData` ("Malformed request line") error. -/
def parse_request (s : List Char) : ParseResult :=
  match firstLine s with
  | some line =>
    match splitWs line with
    | t0 :: t1 :: _ => .ok ⟨t0, t1⟩
    | _ => .invalidData
  | none => .invalidData

/-! ## `read_request` (the framer, `src/request.rs`) -/

/-- Result of `read_request`: the only error it constructs itself is
`ErrorKind::UnexpectedEof` ("connection closed"); the returned value is the
accumulated byte buffer (the source's final lossy UTF-8 conversion is a
presentation step over exactly these bytes and is not modelled). -/
inductive ReadResult where
  | ok (bytes : List Nat)
  | eofErr
deriving DecidableEq

/-- The loop condition `buffer.windows(4).any(|w| w == b"\r\n\r\n")`:
true exactly when some length-4 window of the buffer is `13, 10, 13, 10`. -/
def hasTerminator : List Nat → Bool
  | a :: b :: c :: d :: rest =>
    ((a == 13) && (b == 10) && (c == 13) && (d == 10)) || hasTerminator (b :: c :: d :: rest)
  | _ => false

/-- The read loop of `read_request`: each element of `chunks` is the byte slice a
call to `stream.read` delivers (an empty element is a read returning 0, i.e. the
peer closed; running off the end of the list likewise models a closed stream).
The source checks `n == 0` before extending the buffer, then re-checks the whole
accumulated buffer for the terminator. -/
def readLoop : List (List Nat) → List Nat → ReadResult
  | [], _ => .eofErr
  | c :: rest, buf =>
    if c = [] then .eofErr
    else
      let buf2 := buf ++ c
      if hasTerminator buf2 then .ok buf2 else readLoop rest buf2

/-- `read_request` from `src/request.rs`, starting from an empty buffer. -/
def read_request (chunks : List (List Nat)) : ReadResult := readLoop chunks []

/-! ## `src/response.rs` -/

/-- Joining a relative component onto a `PathBuf`, as `path.push(relative)` does for
a non-absolute `relative`: a `/` separator is inserted unless the base is empty or
already ends with one. -/
def pathJoin (root rel : List Char) : List Char :=
  if root = [] then rel
  else if root.getLast? = some '/' then root ++ rel
  else root ++ '/' :: rel

/-- `generate_path` from `src/response.rs`: request paths `/` and `/index` map to
`index.html` under the root; any other request path is appended to the root with
all leading `/` characters stripped (`trim_start_matches('/')`). -/
def generate_path (request : HttpRequest) (root : List Char) : List Char :=
  let relative :=
    if request.path = "/".toList ∨ request.path = "/index".toList then "index.html".toList
    else request.path.dropWhile (fun c => c = '/')
  pathJoin root relative

/-- The normal components of a path: the segments between `/` separators, with
empty segments and `.` segments dropped, as `std::path::Path::components` does. -/
def pathComponents (p : List Char) : List (List Char) :=
  (p.splitOn '/').filter (fun c => c ≠ [] ∧ c ≠ ".".toList)

/-- `std::path::Path::file_name`: the last normal component, or `none` when there is
none or the path ends in `..`. -/
def fileNameOpt (p : List Char) : Option (List Char) :=
  match (pathComponents p).getLast? with
  | some f => if f = "..".toList then none else some f
  | none => none

/-- The extension of a file name, per `std::path::Path::extension`: the portion after
the final `.`; `none` when there is no `.` or when the only `.` is the leading
character (a dot-file has no extension). -/
def extOf (f : List Char) : Option (List Char) :=
  let revTail := f.reverse.takeWhile (fun c => c ≠ '.')
  if revTail.length = f.length then none
  else if f.length = revTail.length + 1 then none
  else some revTail.reverse

/-- `path.extension().and_then(|ext| ext.to_str())` as used by `detect_mime_type`
(`to_str` cannot fail in this character-list model). -/
def pathExtension (p : List Char) : Option (List Char) :=
  (fileNameOpt p).bind extOf

/-- `detect_mime_type` from `src/response.rs`: a case-sensitive match on the path's
extension, defaulting to `application/octet-stream`. -/
def detect_mime_type (p : List Char) : List Char :=
  match pathExtension p with
  | some e =>
    if e = "html".toList then "text/html".toList
    else if e = "css".toList then "text/css".toList
    else if e = "js".toList then "application/javascript".toList
    else if e = "png".toList then "image/png".toList
    else if e = "jpg".toList ∨ e = "jpeg".toList then "image/jpeg".toList
    else if e = "gif".toList then "image/gif".toList
    else "application/octet-stream".toList
  | none => "application/octet-stream".toList

/-- The MIME table exactly as the specification words it (spec §4.4): used to compare
`detect_mime_type` against the spec's description of the mapping. -/
def specMimeTable (ext : Option (List Char)) : List Char :=
  match ext with
  | some e =>
    if e = "html".toList then "text/html".toList
    else if e = "css".toList then "text/css".toList
    else if e = "js".toList then "application/javascript".toList
    else if e = "png".toList then "image/png".toList
    else if e = "jpg".toList ∨ e = "jpeg".toList then "image/jpeg".toList
    else if e = "gif".toList then "image/gif".toList
    else "application/octet-stream".toList
  | none => "application/octet-stream".toList

/-- An abstract read-only filesystem: what `fs::read` returns for each path
(`none` models any read failure: missing file, permissions, is-a-directory, ...). -/
abbrev FS := List Char → Option (List Nat)

/-- The hard-coded minimal HTML body `b"<h1>404 Not Found</h1>"`. -/
def default404Body : List Nat := "<h1>404 Not Found</h1>".toList.map Char.toNat

/-- `handle_404` from `src/response.rs`: reads the fixed path `static/404.html`
(independent of any configured root) and falls back to the hard-coded body. -/
def handle_404 (fs : FS) : List Nat :=
  match fs "static/404.html".toList with
  | some contents => contents
  | none => default404Body

/-- The status line `HTTP/1.1 200 OK`. -/
def statusOk : List Char := "HTTP/1.1 200 OK".toList

/-- The status line `HTTP/1.1 404 NOT FOUND`. -/
def statusNotFound : List Char := "HTTP/1.1 404 NOT FOUND".toList

/-- One HTTP response as `handle_response` emits it: the pieces interpolated into the
source's `format!` header string, plus the body bytes written after it. -/
structure Response where
  status_line : List Char
  content_type : List Char
  content_length : Nat
  body : List Nat
deriving DecidableEq

/-- `handle_response` from `src/response.rs`: resolves the path, detects the MIME
type from it, reads the file (status 200 with its contents) or falls back to
`handle_404` (status 404), and emits the header with `Content-Length: body.len()`. -/
def handle_response (fs : FS) (request : HttpRequest) (root : List Char) : Response :=
  let path := generate_path request root
  let content_type := detect_mime_type path
  match fs path with
  | some contents =>
    { status_line := statusOk, content_type := content_type,
      content_length := contents.length, body := contents }
  | none =>
    let body := handle_404 fs
    { status_line := statusNotFound, content_type := content_type,
      content_length := body.length, body := body }

/-- The header block exactly as the source's `format!` builds it, followed by the
body: the full byte stream written to the connection (header chars are ASCII). -/
def responseBytes (r : Response) : List Nat :=
  (r.status_line ++ "\r\nContent-Type: ".toList ++ r.content_type
    ++ "\r\nContent-Length: ".toList ++ Nat.toDigits 10 r.content_length
    ++ "\r\n\r\n".toList).map Char.toNat ++ r.body

/-! ## `src/threadpool.rs` -/

/-- A worker identity (struct `Worker`): the ordinal id passed to `Worker::new`.
The spawned thread's run loop is concurrent behaviour and is not modelled. -/
structure Worker where
  id : Nat
deriving DecidableEq

/-- The thread pool (struct `ThreadPool`): its vector of workers. -/
structure ThreadPool where
  workers : List Worker
deriving DecidableEq

/-- `ThreadPool::new` from `src/threadpool.rs`: `assert!(size > 0)` (modelled as
`none`, the process-terminating panic) and otherwise one worker per id in
`0..size`. -/
def ThreadPool.new (size : Nat) : Option ThreadPool :=
  if size = 0 then none
  else some ⟨(List.range size).map Worker.mk⟩

/-! # Lemmas and claim theorems -/

/-! ### Parser lemmas -/

theorem splitWsAux_ne_nil : ∀ (l acc t : List Char), t ∈ splitWsAux l acc → t ≠ [] := by
  intro l
  induction l with
  | nil =>
    intro acc t ht
    simp only [splitWsAux] at ht
    by_cases hacc : acc = []
    · simp [hacc] at ht
    · simp only [if_neg hacc, List.mem_singleton] at ht
      subst ht
      simpa using hacc
  | cons c rest ih =>
    intro acc t ht
    simp only [splitWsAux] at ht
    by_cases hw : isRustWhitespace c
    · simp only [hw, if_true] at ht
      by_cases hacc : acc = []
      · rw [if_pos hacc] at ht
        exact ih [] t ht
      · rw [if_neg hacc] at ht
        rcases List.mem_cons.mp ht with h | h
        · subst h; simpa using hacc
        · exact ih [] t h
    · rw [if_neg (by simp [hw])] at ht
      exact ih (c :: acc) t ht

theorem splitWs_mem_ne_nil (l t : List Char) (ht : t ∈ splitWs l) : t ≠ [] :=
  splitWsAux_ne_nil l [] t ht

/-! ### Framer lemmas -/

theorem hasTerminator_append (l m : List Nat) (h : hasTerminator l = true) :
    hasTerminator (l ++ m) = true := by
  induction l with
  | nil => simp [hasTerminator] at h
  | cons a tail ih =>
    match tail with
    | [] => simp [hasTerminator] at h
    | [b] => simp [hasTerminator] at h
    | [b, c] => simp [hasTerminator] at h
    | b :: c :: d :: rest =>
      simp only [hasTerminator, Bool.or_eq_true] at h
      rcases h with h | h
      · simp only [List.cons_append, hasTerminator, h, Bool.true_or]
      · have := ih h
        simp only [List.cons_append] at this ⊢
        simp only [hasTerminator, Bool.or_eq_true]
        right
        exact this

theorem hasTerminator_of_append_false (l m : List Nat)
    (h : hasTerminator (l ++ m) = false) : hasTerminator l = false := by
  by_contra hne
  rw [hasTerminator_append l m (by simpa using hne)] at h
  cases h

/-- If the loop returns a buffer, that buffer is the starting buffer followed by
some positive number of whole chunks, and it contains the terminator. -/
theorem readLoop_ok : ∀ (chunks : List (List Nat)) (buf out : List Nat),
    readLoop chunks buf = .ok out →
    ∃ k, 0 < k ∧ k ≤ chunks.length ∧ out = buf ++ (chunks.take k).flatten ∧
      hasTerminator out = true := by
  intro chunks
  induction chunks with
  | nil => intro buf out h; simp [readLoop] at h
  | cons c rest ih =>
    intro buf out h
    simp only [readLoop] at h
    by_cases hc : c = []
    · rw [if_pos hc] at h; cases h
    · rw [if_neg hc] at h
      by_cases hterm : hasTerminator (buf ++ c) = true
      · rw [if_pos hterm] at h
        cases h
        refine ⟨1, Nat.one_pos, by simp, by simp, hterm⟩
      · rw [if_neg hterm] at h
        obtain ⟨k, hk0, hklen, hout, hht⟩ := ih (buf ++ c) out h
        refine ⟨k + 1, Nat.succ_pos k, by simpa using hklen, ?_, hht⟩
        rw [hout]
        simp [List.take_succ_cons, List.append_assoc]

/-- If the whole stream never exhibits the terminator, the loop fails with EOF. -/
theorem readLoop_eof : ∀ (chunks : List (List Nat)) (buf : List Nat),
    hasTerminator (buf ++ chunks.flatten) = false → readLoop chunks buf = .eofErr := by
  intro chunks
  induction chunks with
  | nil => intro buf _; simp [readLoop]
  | cons c rest ih =>
    intro buf h
    simp only [readLoop]
    by_cases hc : c = []
    · rw [if_pos hc]
    · rw [if_neg hc]
      have hflat : buf ++ (c :: rest).flatten = (buf ++ c) ++ rest.flatten := by
        simp [List.append_assoc]
      rw [hflat] at h
      have hbc : hasTerminator (buf ++ c) = false :=
        hasTerminator_of_append_false _ _ h
      rw [if_neg (by simp [hbc])]
      exact ih (buf ++ c) h

/-- If some read returns zero bytes before the terminator has appeared in the
accumulated buffer, the loop fails with EOF. -/
theorem readLoop_eof_of_empty : ∀ (j : Nat) (chunks : List (List Nat)) (buf : List Nat),
    chunks.get? j = some [] →
    hasTerminator (buf ++ (chunks.take j).flatten) = false →
    readLoop chunks buf = .eofErr := by
  intro j
  induction j with
  | zero =>
    intro chunks buf hj _
    match chunks with
    | [] => cases hj
    | c :: rest =>
      simp only [List.get?] at hj
      cases hj
      simp [readLoop]
  | succ j ih =>
    intro chunks buf hj hterm
    match chunks with
    | [] => cases hj
    | c :: rest =>
      simp only [List.get?] at hj
      simp only [readLoop]
      by_cases hc : c = []
      · rw [if_pos hc]
      · rw [if_neg hc]
        have hflat : buf ++ ((c :: rest).take (j + 1)).flatten
            = (buf ++ c) ++ (rest.take j).flatten := by
          simp [List.take_succ_cons, List.append_assoc]
        rw [hflat] at hterm
        have hbc : hasTerminator (buf ++ c) = false :=
          hasTerminator_of_append_false _ _ hterm
        rw [if_neg (by simp [hbc])]
        exact ih rest (buf ++ c) hj hterm

/-- If the terminator first appears after the `k`-th read (checked against the whole
accumulated buffer) and no earlier read returned zero bytes, the loop stops right
there and returns everything accumulated so far. -/
theorem readLoop_reaches : ∀ (chunks : List (List Nat)) (buf : List Nat) (k : Nat),
    0 < k → k ≤ chunks.length →
    (∀ j, j < k → chunks.get? j ≠ some []) →
    (∀ j, j < k → hasTerminator (buf ++ (chunks.take j).flatten) = false) →
    hasTerminator (buf ++ (chunks.take k).flatten) = true →
    readLoop chunks buf = .ok (buf ++ (chunks.take k).flatten) := by
  intro chunks
  induction chunks with
  | nil =>
    intro buf k hk0 hklen _ _ _
    exact absurd (Nat.lt_of_lt_of_le hk0 hklen) (by simp)
  | cons c rest ih =>
    intro buf k hk0 hklen hne hbefore hterm
    have hc : c ≠ [] := by
      intro hc
      exact hne 0 hk0 (by simp [hc])
    simp only [readLoop]
    rw [if_neg hc]
    match k with
    | 1 =>
      have : buf ++ ((c :: rest).take 1).flatten = buf ++ c := by simp
      rw [this] at hterm
      rw [if_pos hterm]
      simp
    | k + 2 =>
      have h1 : hasTerminator (buf ++ c) = false := by
        have := hbefore 1 (by omega)
        simpa using this
      rw [if_neg (by simp [h1])]
      have hgoal : readLoop rest (buf ++ c) = .ok ((buf ++ c) ++ (rest.take (k + 1)).flatten) := by
        apply ih (buf ++ c) (k + 1) (Nat.succ_pos k) (by simpa using hklen)
        · intro j hj
          have := hne (j + 1) (by omega)
          simpa using this
        · intro j hj
          have := hbefore (j + 1) (by omega)
          simpa [List.take_succ_cons, List.append_assoc] using this
        · simpa [List.take_succ_cons, List.append_assoc] using hterm
      rw [hgoal]
      simp [List.take_succ_cons, List.append_assoc]


theorem firstLine_eq_none_iff (s : List Char) : firstLine s = none ↔ s = [] := by
  unfold firstLine
  by_cases h : s = [] <;> simp [h]

/-! ### Claim C7 -/

/-- Claim C7: `parse_request` fails with the `InvalidData` (Malformed) error exactly
when the input is empty (equivalently, has no first line) or the first line has
fewer than two whitespace-separated tokens; for any first line with two or more
tokens it succeeds with `method` the first token and `path` the second, verbatim. -/
theorem parse_request_token_rule (s : List Char) :
    (s = [] → parse_request s = .invalidData) ∧
    (∀ line, firstLine s = some line → (splitWs line).length < 2 →
      parse_request s = .invalidData) ∧
    (∀ line t0 t1 rest, firstLine s = some line → splitWs line = t0 :: t1 :: rest →
      parse_request s = .ok ⟨t0, t1⟩) ∧
    (parse_request s = .invalidData →
      s = [] ∨ ∃ line, firstLine s = some line ∧ (splitWs line).length < 2) := by
  refine ⟨?_, ?_, ?_, ?_⟩
  · intro hs
    subst hs
    rfl
  · intro line hline hlen
    rcases hsp : splitWs line with _ | ⟨t0, _ | ⟨t1, rest⟩⟩
    · simp only [parse_request, hline, hsp]
    · simp only [parse_request, hline, hsp]
    · rw [hsp] at hlen
      simp at hlen
      omega
  · intro line t0 t1 rest hline hsp
    simp only [parse_request, hline, hsp]
  · intro herr
    rcases hline : firstLine s with _ | line
    · exact Or.inl ((firstLine_eq_none_iff s).mp hline)
    · simp only [parse_request, hline] at herr
      right
      refine ⟨line, rfl, ?_⟩
      rcases hsp : splitWs line with _ | ⟨t0, _ | ⟨t1, rest⟩⟩
      · simp
      · simp
      · rw [hsp] at herr
        cases herr

/-- Witness for C7 at a concrete request line with three tokens. -/
theorem parse_request_token_rule_witness :
    parse_request "GET /index.html HTTP/1.1\r\nHost: localhost\r\n\r\n".toList
      = .ok ⟨"GET".toList, "/index.html".toList⟩ :=
  (parse_request_token_rule "GET /index.html HTTP/1.1\r\nHost: localhost\r\n\r\n".toList).2.2.1
    "GET /index.html HTTP/1.1".toList "GET".toList "/index.html".toList
    ["HTTP/1.1".toList] (by decide) (by decide)

/-! ### Claim C2 -/

/-- Claim C2, counterexample: `parse_request` accepts a request line whose second
token does not begin with `/` and stores that token as the path verbatim, so raw
lines with a non-`/` second token are not rejected. -/
theorem parse_request_accepts_nonslash_path :
    parse_request "GET foo HTTP/1.1".toList = .ok ⟨"GET".toList, "foo".toList⟩ ∧
    ("foo".toList).head? ≠ some '/' := by decide

/-- Claim C2, amended: on every successful parse the path is non-empty (whitespace
splitting yields non-empty tokens only), but it is the second token taken verbatim
and need not begin with `/`; no rejection of non-`/` paths is performed. -/
theorem parse_request_path_nonempty (s : List Char) (req : HttpRequest)
    (h : parse_request s = .ok req) : req.path ≠ [] := by
  rcases hline : firstLine s with _ | line
  · simp only [parse_request, hline] at h
    cases h
  · simp only [parse_request, hline] at h
    rcases hsp : splitWs line with _ | ⟨t0, _ | ⟨t1, rest⟩⟩ <;> rw [hsp] at h
    · cases h
    · cases h
    · cases h
      exact splitWs_mem_ne_nil line t1
        (by rw [hsp]; exact List.mem_cons_of_mem t0 (List.mem_cons_self t1 rest))

/-- Witness for the amended C2 at a concrete request. -/
theorem parse_request_path_nonempty_witness :
    ({ method := "GET".toList, path := "/x".toList } : HttpRequest).path ≠ [] :=
  parse_request_path_nonempty "GET /x HTTP/1.1".toList
    ⟨"GET".toList, "/x".toList⟩ (by decide)

/-! ### Claim C8 -/

/-- Claim C8: `detect_mime_type` is total and deterministic and agrees with the
spec's fixed case-sensitive table on every path: `html`, `css`, `js`, `png`, `jpg`,
`jpeg`, `gif` map to their MIME strings and every other or absent extension maps to
`application/octet-stream`. -/
theorem detect_mime_type_table (p : List Char) :
    detect_mime_type p = specMimeTable (pathExtension p) := by
  unfold detect_mime_type specMimeTable
  rfl

/-! ### Claim C9 -/

/-- Claim C9: `ThreadPool::new(size)` produces exactly `size` workers for every
positive `size`, and hits the `assert!(size > 0)` panic (modelled as `none`) when
`size = 0`. -/
theorem threadpool_new_size :
    (∀ size, 0 < size →
      (ThreadPool.new size).map (fun tp => tp.workers.length) = some size) ∧
    ThreadPool.new 0 = none := by
  constructor
  · intro size hs
    unfold ThreadPool.new
    rw [if_neg (Nat.pos_iff_ne_zero.mp hs)]
    simp
  · rfl

/-- Witness for C9 at size 4. -/
theorem threadpool_new_size_witness :
    (ThreadPool.new 4).map (fun tp => tp.workers.length) = some 4 :=
  threadpool_new_size.1 4 (by decide)

/-! ### Claim C5 -/

theorem dropWhile_slash_replicate (k : Nat) (p : List Char) :
    (List.replicate k '/' ++ p).dropWhile (fun c => c = '/')
      = p.dropWhile (fun c => c = '/') := by
  induction k with
  | zero => simp
  | succ k ih =>
    rw [List.replicate_succ, List.cons_append, List.dropWhile_cons_of_pos (by simp)]
    exact ih

/-- Claim C5: `generate_path` sends `/` and `/index` to `index.html` joined under the
root, sends every other request path to the root joined with the path stripped of
all leading `/` characters, and (on those other paths) is invariant under extra
leading `/` characters. -/
theorem generate_path_mapping :
    (∀ m root, generate_path ⟨m, "/".toList⟩ root = pathJoin root "index.html".toList) ∧
    (∀ m root, generate_path ⟨m, "/index".toList⟩ root = pathJoin root "index.html".toList) ∧
    (∀ m root p, p ≠ "/".toList → p ≠ "/index".toList →
      generate_path ⟨m, p⟩ root = pathJoin root (p.dropWhile (fun c => c = '/'))) ∧
    (∀ m root p k, p ≠ "/".toList → p ≠ "/index".toList →
      List.replicate k '/' ++ p ≠ "/".toList → List.replicate k '/' ++ p ≠ "/index".toList →
      generate_path ⟨m, List.replicate k '/' ++ p⟩ root = generate_path ⟨m, p⟩ root) := by
  refine ⟨?_, ?_, ?_, ?_⟩
  · intro m root
    simp [generate_path]
  · intro m root
    simp [generate_path]
  · intro m root p h1 h2
    simp only [generate_path]
    rw [if_neg (not_or.mpr ⟨h1, h2⟩)]
  · intro m root p k h1 h2 h3 h4
    simp only [generate_path]
    rw [if_neg (not_or.mpr ⟨h3, h4⟩), if_neg (not_or.mpr ⟨h1, h2⟩),
      dropWhile_slash_replicate]

/-- Witness for C5: two extra leading slashes do not change the resolved path. -/
theorem generate_path_mapping_witness :
    generate_path ⟨"GET".toList, List.replicate 2 '/' ++ "/a/b.png".toList⟩ "root".toList
      = generate_path ⟨"GET".toList, "/a/b.png".toList⟩ "root".toList :=
  generate_path_mapping.2.2.2 "GET".toList "root".toList "/a/b.png".toList 2
    (by decide) (by decide) (by decide) (by decide)

/-! ### Claim C1 -/

/-- Claim C1, counterexample: the configured root is `site` and the root's own
`site/404.html` is readable with contents `[120]`, yet for an unreadable resolved
file the 404 body is the hard-coded fallback, not those contents: the fallback
routine never consults the root-relative `404.html` (it reads the fixed
`static/404.html` instead). -/
theorem handle_404_ignores_root :
    (handle_response (fun p => if p = "site/404.html".toList then some [120] else none)
        ⟨"GET".toList, "/missing".toList⟩ "site".toList).status_line = statusNotFound ∧
    (handle_response (fun p => if p = "site/404.html".toList then some [120] else none)
        ⟨"GET".toList, "/missing".toList⟩ "site".toList).body = default404Body ∧
    (fun p => if p = "site/404.html".toList then some [120] else none)
        "site/404.html".toList = some ([120] : List Nat) ∧
    default404Body ≠ [120] := by decide

/-- Claim C1, amended: on any read failure of the resolved file, the status is
`404 NOT FOUND` and the body comes from `handle_404`, which reads the fixed path
`static/404.html` (relative to the process working directory, independent of the
configured root) and substitutes the hard-coded minimal HTML body if that read
also fails. -/
theorem handle_response_404_fallback :
    ∀ (fs : FS) (request : HttpRequest) (root : List Char),
      fs (generate_path request root) = none →
      (handle_response fs request root).status_line = statusNotFound ∧
      (handle_response fs request root).body = handle_404 fs ∧
      (fs "static/404.html".toList = none → handle_404 fs = default404Body) ∧
      (∀ c, fs "static/404.html".toList = some c → handle_404 fs = c) := by
  intro fs request root h
  refine ⟨?_, ?_, ?_, ?_⟩
  · simp [handle_response, h]
  · simp [handle_response, h]
  · intro h4
    simp only [handle_404, h4]
  · intro c h4
    simp only [handle_404, h4]

/-- Witness for the amended C1: with no readable file at all, a missing page gets a
404 status and the hard-coded fallback body. -/
theorem handle_response_404_fallback_witness :
    (handle_response (fun _ => none) ⟨"GET".toList, "/missing".toList⟩
        "site".toList).status_line = statusNotFound ∧
    (handle_response (fun _ => none) ⟨"GET".toList, "/missing".toList⟩
        "site".toList).body = default404Body := by
  have h := handle_response_404_fallback (fun _ => none)
    ⟨"GET".toList, "/missing".toList⟩ "site".toList rfl
  exact ⟨h.1, h.2.1.trans (h.2.2.1 rfl)⟩

/-! ### Claim C3 -/

/-- Claim C3, counterexample: two requests that both fail resolution get different
`Content-Type` values (`image/png` vs `text/css`), so the 404 fallback path does not
emit one fixed Content-Type independent of the requested path's extension. -/
theorem content_type_varies_on_404 :
    (handle_response (fun _ => none) ⟨"GET".toList, "/a.png".toList⟩
        "r".toList).status_line = statusNotFound ∧
    (handle_response (fun _ => none) ⟨"GET".toList, "/a.css".toList⟩
        "r".toList).status_line = statusNotFound ∧
    (handle_response (fun _ => none) ⟨"GET".toList, "/a.png".toList⟩
        "r".toList).content_type
      ≠ (handle_response (fun _ => none) ⟨"GET".toList, "/a.css".toList⟩
        "r".toList).content_type := by decide

/-- Claim C3, amended: on the 404 fallback path the `Content-Type` header is
`detect_mime_type` of the resolved path — computed before the read and reused, so it
varies with the requested path's extension exactly as on the success path. -/
theorem content_type_404_from_extension :
    ∀ (fs : FS) (request : HttpRequest) (root : List Char),
      fs (generate_path request root) = none →
      (handle_response fs request root).status_line = statusNotFound ∧
      (handle_response fs request root).content_type
        = detect_mime_type (generate_path request root) := by
  intro fs request root h
  constructor <;> simp [handle_response, h]

/-- Witness for the amended C3 at a `.png` request that fails resolution. -/
theorem content_type_404_from_extension_witness :
    (handle_response (fun _ => none) ⟨"GET".toList, "/a.png".toList⟩
        "r".toList).content_type = "image/png".toList := by
  have h := content_type_404_from_extension (fun _ => none)
    ⟨"GET".toList, "/a.png".toList⟩ "r".toList rfl
  exact h.2.trans (by decide)

/-! ### Claim C4 -/

/-- Claim C4: when the resolved file is readable the status is `200 OK` and the body
is exactly the file's bytes; and in every response, 200 or 404, the emitted
`Content-Length` equals the byte length of the body that is written. -/
theorem handle_response_ok_and_length :
    (∀ (fs : FS) (request : HttpRequest) (root : List Char) (contents : List Nat),
      fs (generate_path request root) = some contents →
      (handle_response fs request root).status_line = statusOk ∧
      (handle_response fs request root).body = contents) ∧
    (∀ (fs : FS) (request : HttpRequest) (root : List Char),
      (handle_response fs request root).content_length
        = (handle_response fs request root).body.length) := by
  constructor
  · intro fs request root contents h
    constructor <;> simp [handle_response, h]
  · intro fs request root
    rcases h : fs (generate_path request root) with _ | contents <;>
      simp [handle_response, h]

/-- Witness for C4: a one-file filesystem serving `/` from `site/index.html`. -/
theorem handle_response_ok_and_length_witness :
    (handle_response (fun p => if p = "site/index.html".toList then some [104, 105] else none)
        ⟨"GET".toList, "/".toList⟩ "site".toList).status_line = statusOk ∧
    (handle_response (fun p => if p = "site/index.html".toList then some [104, 105] else none)
        ⟨"GET".toList, "/".toList⟩ "site".toList).body = [104, 105] :=
  handle_response_ok_and_length.1
    (fun p => if p = "site/index.html".toList then some [104, 105] else none)
    ⟨"GET".toList, "/".toList⟩ "site".toList [104, 105] (by decide)

/-! ### Claim C6 -/

/-- Claim C6: `read_request` returns the accumulated bytes at the first read after
which the 4-byte terminator appears anywhere in the accumulated buffer (the check is
against the whole buffer, so a terminator split across two reads is found); and it
fails with the `UnexpectedEof` error when the stream ends, or some read returns zero
bytes, before the terminator has appeared. -/
theorem read_request_terminator_eof :
    (∀ (chunks : List (List Nat)) (k : Nat), 0 < k → k ≤ chunks.length →
      (∀ j, j < k → chunks.get? j ≠ some []) →
      (∀ j, j < k → hasTerminator (chunks.take j).flatten = false) →
      hasTerminator (chunks.take k).flatten = true →
      read_request chunks = .ok (chunks.take k).flatten) ∧
    (∀ chunks : List (List Nat), hasTerminator chunks.flatten = false →
      read_request chunks = .eofErr) ∧
    (∀ (chunks : List (List Nat)) (j : Nat), chunks.get? j = some [] →
      hasTerminator (chunks.take j).flatten = false →
      read_request chunks = .eofErr) := by
  refine ⟨?_, ?_, ?_⟩
  · intro chunks k hk0 hklen hne hbef ht
    have h := readLoop_reaches chunks [] k hk0 hklen hne
      (by simpa using hbef) (by simpa using ht)
    simpa [read_request] using h
  · intro chunks h
    exact readLoop_eof chunks [] (by simpa using h)
  · intro chunks j hj ht
    exact readLoop_eof_of_empty j chunks [] hj (by simpa using ht)

/-- Witness for C6: the terminator arrives split across two reads (`13 10 13` then
`10 65`), and the framer returns everything accumulated; a lone empty read gives the
EOF error. -/
theorem read_request_terminator_eof_witness :
    read_request [[13, 10, 13], [10, 65]]
      = .ok (([[13, 10, 13], [10, 65]].take 2).flatten) ∧
    read_request [[71], []] = .eofErr :=
  ⟨read_request_terminator_eof.1 [[13, 10, 13], [10, 65]] 2 (by decide) (by decide)
      (by decide) (by decide) (by decide),
    read_request_terminator_eof.2.2 [[71], []] 1 (by decide) (by decide)⟩

/-! ### Claim C10 -/

/-- Claim C10: `read_request` never truncates at the end-of-headers marker — whenever
it succeeds, the returned bytes are the earlier chunks followed by the final read's
chunk in its entirety, so bytes arriving after the terminator in the same chunk are
included in the result. -/
theorem read_request_no_truncation :
    ∀ (chunks : List (List Nat)) (out : List Nat), read_request chunks = .ok out →
      ∃ k c, 0 < k ∧ k ≤ chunks.length ∧ chunks.get? (k - 1) = some c ∧
        out = (chunks.take (k - 1)).flatten ++ c ∧ hasTerminator out = true := by
  intro chunks out h
  obtain ⟨k, hk0, hklen, hout, hterm⟩ :=
    readLoop_ok chunks [] out (by simpa [read_request] using h)
  have hlt : k - 1 < chunks.length := by omega
  obtain ⟨c, hc⟩ : ∃ c, chunks.get? (k - 1) = some c :=
    ⟨chunks.get ⟨k - 1, hlt⟩, List.get?_eq_get hlt⟩
  refine ⟨k, c, hk0, hklen, hc, ?_, hterm⟩
  have hk : k = (k - 1) + 1 := by omega
  rw [hout, hk, List.take_succ]
  have hc2 : chunks[k - 1]? = some c := by
    rw [← List.get?_eq_getElem?]
    exact hc
  simp [hc2]

/-- Witness for C10: the bytes `66 79` after the terminator arrive in the same chunk
and are present in the returned buffer. -/
theorem read_request_no_truncation_witness :
    ∃ k c, 0 < k ∧ k ≤ ([[71, 13, 10, 13, 10, 66, 79]] : List (List Nat)).length ∧
      ([[71, 13, 10, 13, 10, 66, 79]] : List (List Nat)).get? (k - 1) = some c ∧
      [71, 13, 10, 13, 10, 66, 79]
        = (([[71, 13, 10, 13, 10, 66, 79]] : List (List Nat)).take (k - 1)).flatten ++ c ∧
      hasTerminator [71, 13, 10, 13, 10, 66, 79] = true :=
  read_request_no_truncation [[71, 13, 10, 13, 10, 66, 79]]
    [71, 13, 10, 13, 10, 66, 79] (by decide)
